import Mathlib

/-!
Shallow embedding of `src/main.py` (jigsaw stitching engine).

Conventions of the embedding:
* numpy 2-vectors of coordinates are modelled as `Vec2 := ℤ × ℤ` in
  half-units: a stored vector `v` denotes the source vector `v / 2`.  Every
  coordinate the program ever produces is a multiple of `0.5` (integer piece
  positions plus `±0.5` boundary offsets and their sums/differences), these
  are exact in floating point, and doubling is an injection commuting with
  the only operations used on positions (`+`, `-`, `==`), so the half-unit
  integer model is faithful.  E.g. the boundary offset `(0, -0.5)` of the
  source is `(0, -1)` here;
* RGB pixels are `ℤ × ℤ × ℤ` (Python integers);
* in-place mutation is modelled by explicit state passing: `merge_with`
  returns the final `self` (with `other`'s pieces appended) together with the
  list of merged boundary pairs, or, on `raise InvalidJigsaw`, the state at
  the moment of the raise (`self` untouched, `other` already translated);
* `deepcopy` is the identity on immutable values, so the trial merges of
  `find_all_connections` are plain function applications.
-/

abbrev Pixel : Type := ℤ × ℤ × ℤ

abbrev Vec2 : Type := ℤ × ℤ

/-- `class Boundary`: an oriented edge (`pixels`, numpy position `_pos`,
`is_internal` initially `False`). -/
structure Boundary where
  pixels : List Pixel
  pos : Vec2
  is_internal : Bool
deriving DecidableEq

namespace Boundary

/-- `Boundary.__init__`: `is_internal` starts out `False`. -/
def init (pixels : List Pixel) (pos : Vec2) : Boundary :=
  { pixels := pixels, pos := pos, is_internal := false }

/-- `Boundary.is_compatible_with`: same pixel-sequence length. -/
def is_compatible_with (self other : Boundary) : Bool :=
  self.pixels.length == other.pixels.length

/-- Squared difference of one pixel over its three colour channels
(`for j in range(3)` of `compare_difference_with`). -/
def pixelDiff (p q : Pixel) : ℤ :=
  (p.1 - q.1) ^ 2 + (p.2.1 - q.2.1) ^ 2 + (p.2.2 - q.2.2) ^ 2

/-- The loop of `compare_difference_with` over the paired pixel lists
(`for i in range(len(self.pixels))`, indexing `other.pixels[i]`; faithful
whenever `other` is at least as long as `self`, the only case the program
reaches -- callers check `is_compatible_with` first). -/
def sumPixelDiff : List Pixel → List Pixel → ℤ
  | p :: ps, q :: qs => pixelDiff p q + sumPixelDiff ps qs
  | _, _ => 0

/-- `Boundary.compare_difference_with`: sum of squared channel differences. -/
def compare_difference_with (self other : Boundary) : ℤ :=
  sumPixelDiff self.pixels other.pixels

/-- `Boundary.update_pos`: `self._pos = self._pos - parent_pos + parent_new_pos`. -/
def update_pos (self : Boundary) (parent_pos parent_new_pos : Vec2) : Boundary :=
  { self with pos := self.pos - parent_pos + parent_new_pos }

end Boundary

/-- Rectangular pixel grid standing in for a `PIL.Image` (row-major:
`pix` is a list of rows, `getpixel (i, j)` is column `i` of row `j`). -/
structure Img where
  width : ℕ
  height : ℕ
  pix : List (List Pixel)
deriving DecidableEq

namespace Img

/-- `image.getpixel((i, j))`. -/
def getpixel (img : Img) (i j : ℕ) : Pixel :=
  ((img.pix.getD j []).getD i (0, 0, 0))

end Img

/-- `class JigsawPiece`: name, image, grid position `_pos` (initially
`array([0, 0])`) and the four boundaries from `_get_boundaries`. -/
structure JigsawPiece where
  name : String
  image : Img
  pos : Vec2
  boundaries : List Boundary
deriving DecidableEq

namespace JigsawPiece

/-- `JigsawPiece._get_boundaries` evaluated at an arbitrary `_pos`:
top, left, bottom and right edges, offset from `_pos` by `(0,-0.5)`,
`(-0.5,0)`, `(0,0.5)`, `(0.5,0)` respectively -- in half-units:
`(0,-1)`, `(-1,0)`, `(0,1)`, `(1,0)`. -/
def get_boundaries (image : Img) (pos : Vec2) : List Boundary :=
  [ Boundary.init ((List.range image.width).map fun i => image.getpixel i 0)
      (pos + ((0 : ℤ), (-1 : ℤ))),
    Boundary.init ((List.range image.height).map fun j => image.getpixel 0 j)
      (pos + ((-1 : ℤ), (0 : ℤ))),
    Boundary.init ((List.range image.width).map fun i => image.getpixel i (image.height - 1))
      (pos + ((0 : ℤ), (1 : ℤ))),
    Boundary.init ((List.range image.height).map fun j => image.getpixel (image.width - 1) j)
      (pos + ((1 : ℤ), (0 : ℤ))) ]

/-- `JigsawPiece.__init__`: position `(0, 0)`, boundaries from the image. -/
def init (name : String) (image : Img) : JigsawPiece :=
  { name := name, image := image, pos := ((0 : ℤ), (0 : ℤ)),
    boundaries := get_boundaries image ((0 : ℤ), (0 : ℤ)) }

/-- `JigsawPiece.update_pos`: update every boundary with the parent's old and
new positions, then set `_pos`. -/
def update_pos (self : JigsawPiece) (pos : Vec2) : JigsawPiece :=
  { self with
    boundaries := self.boundaries.map fun b => b.update_pos self.pos pos,
    pos := pos }

end JigsawPiece

/-- `class Jigsaw`: a mutable list of pieces. -/
structure Jigsaw where
  pieces : List JigsawPiece
deriving DecidableEq

namespace Jigsaw

/-- `Jigsaw.external_boundaries`: every member boundary with
`is_internal = False`, in piece order then boundary order. -/
def external_boundaries (self : Jigsaw) : List Boundary :=
  (self.pieces.flatMap fun p => p.boundaries).filter fun b => !b.is_internal

/-- `Jigsaw.internal_boundaries`: every member boundary with
`is_internal = True`. -/
def internal_boundaries (self : Jigsaw) : List Boundary :=
  (self.pieces.flatMap fun p => p.boundaries).filter fun b => b.is_internal

/-- The translation loop of `merge_with`:
`piece.update_pos(piece.pos + join_pos_shift)` for every piece of `other`. -/
def translatePieces (shift : Vec2) (pieces : List JigsawPiece) : List JigsawPiece :=
  pieces.map fun p => p.update_pos (p.pos + shift)

/-- The external boundaries of `pieces` sitting exactly at `pos`
(the members of the current inner-loop snapshot that satisfy
`(boundary.pos == other_boundary.pos).all()`). -/
def externalsAt (pos : Vec2) (pieces : List JigsawPiece) : List Boundary :=
  ((pieces.flatMap fun p => p.boundaries).filter fun b => !b.is_internal).filter
    fun b => decide (b.pos = pos)

/-- Set `is_internal = True` on every external boundary of `pieces` at `pos`
(the flag writes the inner loop performs on `other`'s boundaries). -/
def flagAt (pos : Vec2) (pieces : List JigsawPiece) : List JigsawPiece :=
  pieces.map fun p =>
    { p with
      boundaries := p.boundaries.map fun b =>
        if !b.is_internal ∧ b.pos = pos then { b with is_internal := true } else b }

/-- One outer iteration of the merged-boundary loop for a boundary `b` of
`self`: skipped when `b` was already internal at loop entry; otherwise every
currently-external boundary of `other` at `b.pos` is flagged, `b` is flagged
when at least one matched, and for each match a pair
`(b, Boundary(pixels, pos - join_pos_shift))` is recorded. Returns the updated
`b`, the updated state of `other`'s pieces and the recorded pairs. -/
def mergeStep (shift : Vec2) (otherPieces : List JigsawPiece) (b : Boundary) :
    Boundary × List JigsawPiece × List (Boundary × Boundary) :=
  if b.is_internal then (b, otherPieces, [])
  else
    let matched := externalsAt b.pos otherPieces
    let newB := { b with is_internal := !matched.isEmpty }
    (newB, flagAt b.pos otherPieces,
      matched.map fun ob => (newB, Boundary.init ob.pixels (ob.pos - shift)))

/-- The outer loop of `merge_with` over one piece's boundary list, threading
the state of `other`'s pieces and accumulating merged pairs in loop order. -/
def mergeBoundaries (shift : Vec2) (otherPieces : List JigsawPiece) :
    List Boundary → List Boundary × List JigsawPiece × List (Boundary × Boundary)
  | [] => ([], otherPieces, [])
  | b :: bs =>
    let s := mergeStep shift otherPieces b
    let rest := mergeBoundaries shift s.2.1 bs
    (s.1 :: rest.1, rest.2.1, s.2.2 ++ rest.2.2)

/-- The outer loop of `merge_with` over all of `self`'s pieces (the snapshot
`self.external_boundaries` enumerates exactly the initially-external
boundaries in this piece/boundary order, and the flags it sets on `self` never
affect the iteration itself). -/
def mergePieces (shift : Vec2) (otherPieces : List JigsawPiece) :
    List JigsawPiece → List JigsawPiece × List JigsawPiece × List (Boundary × Boundary)
  | [] => ([], otherPieces, [])
  | p :: ps =>
    let hd := mergeBoundaries shift otherPieces p.boundaries
    let rest := mergePieces shift hd.2.1 ps
    ({ p with boundaries := hd.1 } :: rest.1, rest.2.1, hd.2.2 ++ rest.2.2)

/-- `Jigsaw.merge_with(other, join_boundary_pos, other_join_boundary_pos)`.
On `raise InvalidJigsaw` (some grid position held by more than one piece of
`self.pieces + other.pieces` after the shift) the error value is the program
state at the raise: `self` untouched and `other` with its pieces translated.
On success: `self` with flags updated and `other`'s pieces appended, plus the
merged boundary pairs. -/
def merge_with (self other : Jigsaw) (join_boundary_pos other_join_boundary_pos : Vec2) :
    Except (Jigsaw × Jigsaw) (Jigsaw × List (Boundary × Boundary)) :=
  let join_pos_shift := join_boundary_pos - other_join_boundary_pos
  let otherPieces := translatePieces join_pos_shift other.pieces
  if ((self.pieces ++ otherPieces).map fun p => p.pos).Nodup then
    let r := mergePieces join_pos_shift otherPieces self.pieces
    Except.ok (⟨r.1 ++ r.2.1⟩, r.2.2)
  else
    Except.error (self, ⟨otherPieces⟩)

/-- `Jigsaw.find_all_connections(other)`: for every compatible pair of
external boundaries, trial-merge deep copies anchored there and collect the
merged-pair lists of the successful trials (`InvalidJigsaw` trials are
skipped). Copies are value copies, so the trials are pure. -/
def find_all_connections (self other : Jigsaw) :
    List (List (Boundary × Boundary)) :=
  self.external_boundaries.flatMap fun b =>
    other.external_boundaries.filterMap fun ob =>
      if b.is_compatible_with ob then
        match merge_with self other b.pos ob.pos with
        | Except.ok r => some r.2
        | Except.error _ => none
      else none

/-- `Jigsaw.find_all_connections` as the state transformer the Python method
is: it returns the final states of the two live assemblies next to its
result.  The body only ever calls `merge_with` on the deep copies
(`jigsaw_copy`, `other_jigsaw_copy`; a deep copy of an immutable value is the
value itself), so the live assemblies come back exactly as they went in. -/
def find_all_connections_run (self other : Jigsaw) :
    (Jigsaw × Jigsaw) × List (List (Boundary × Boundary)) :=
  ((self, other), find_all_connections self other)

/-- The merged jigsaw of a `merge_with` result (the state of `self` after the
call: on `InvalidJigsaw` the state at the raise). -/
def okJig (r : Except (Jigsaw × Jigsaw) (Jigsaw × List (Boundary × Boundary))) : Jigsaw :=
  match r with
  | Except.ok x => x.1
  | Except.error e => e.1

/-- The merged-boundary-pair list of a successful `merge_with` result. -/
def okPairs (r : Except (Jigsaw × Jigsaw) (Jigsaw × List (Boundary × Boundary))) :
    List (Boundary × Boundary) :=
  match r with
  | Except.ok x => x.2
  | Except.error _ => []

end Jigsaw

/-! The solver loop of `__main__` (lines 224-265): the slice of it the claims
are about, namely how one assembly pair's memo entry is computed from
`find_all_connections` (lines 231-244). -/

namespace Solver

/-- The list comprehension `scores`: `compare_difference_with` over every
boundary pair of one connection group, as rationals (Python's `/` is exact on
these dyadic values). -/
def scores (g : List (Boundary × Boundary)) : List ℚ :=
  g.map fun pr => ((Boundary.compare_difference_with pr.1 pr.2 : ℤ) : ℚ)

/-- `connection_report['score'] = sum(scores) / len(scores)`. -/
def candidateScore (g : List (Boundary × Boundary)) : ℚ :=
  (scores g).sum / ((scores g).length : ℚ)

/-- Follows the spec's words, for comparison with `candidateScore`: the
arithmetic mean of `compare_difference_with` across all boundary pairs of the
candidate's list. -/
def specArithmeticMean (g : List (Boundary × Boundary)) : ℚ :=
  (g.map fun pr => ((Boundary.compare_difference_with pr.1 pr.2 : ℤ) : ℚ)).sum / (g.length : ℚ)

/-- What line 244 (`min(connection_reports, key=...)`) does to the memo table
for one assembly pair: `crashed` models the uncaught `ValueError` that
`min` raises on an empty sequence; `entry r` models storing report `r`. -/
inductive PairOutcome where
  | crashed : PairOutcome
  | entry : List (Boundary × Boundary) × ℚ → PairOutcome
deriving DecidableEq

/-- Python's `min` with a key: the first element of minimal score. -/
def minByScore (first : List (Boundary × Boundary) × ℚ)
    (rest : List (List (Boundary × Boundary) × ℚ)) : List (Boundary × Boundary) × ℚ :=
  rest.foldl (fun best r => if r.2 < best.2 then r else best) first

/-- Lines 231-244 for one pair of live assemblies: build a report per
connection group of `find_all_connections` and take the minimum-score one;
with zero reports the `min` call raises `ValueError` (`crashed`). -/
def computePairEntry (j1 j2 : Jigsaw) : PairOutcome :=
  match (j1.find_all_connections j2).map fun g => (g, candidateScore g) with
  | [] => PairOutcome.crashed
  | r :: rs => PairOutcome.entry (minByScore r rs)

end Solver

/-! Concrete fixtures used by the witnesses and counterexamples: single-piece
jigsaws over a 1x1 image (all four boundaries carry one pixel) and over a
2x2 image (all four boundaries carry two pixels). -/

def imgP : Img := ⟨1, 1, [[(1, 2, 3)]]⟩

def imgQ : Img := ⟨1, 1, [[(4, 5, 6)]]⟩

def imgR : Img := ⟨2, 2, [[(7, 8, 9), (1, 1, 1)], [(2, 2, 2), (3, 3, 3)]]⟩

def jigP : Jigsaw := ⟨[JigsawPiece.init "p" imgP]⟩

def jigQ : Jigsaw := ⟨[JigsawPiece.init "q" imgQ]⟩

def jigR : Jigsaw := ⟨[JigsawPiece.init "r" imgR]⟩

/-! Basic facts about `compare_difference_with` (claim C5). -/

lemma pixelDiff_nonneg (p q : Pixel) : 0 ≤ Boundary.pixelDiff p q := by
  unfold Boundary.pixelDiff
  positivity

lemma pixelDiff_eq_zero_iff (p q : Pixel) : Boundary.pixelDiff p q = 0 ↔ p = q := by
  unfold Boundary.pixelDiff
  rw [add_eq_zero_iff_of_nonneg (by positivity) (sq_nonneg _),
    add_eq_zero_iff_of_nonneg (sq_nonneg _) (sq_nonneg _),
    pow_eq_zero_iff two_ne_zero, pow_eq_zero_iff two_ne_zero, pow_eq_zero_iff two_ne_zero,
    sub_eq_zero, sub_eq_zero, sub_eq_zero, Prod.ext_iff, Prod.ext_iff]
  tauto

lemma sumPixelDiff_nonneg : ∀ ps qs : List Pixel, 0 ≤ Boundary.sumPixelDiff ps qs
  | [], _ => le_refl 0
  | _ :: _, [] => le_refl 0
  | p :: ps, q :: qs =>
    add_nonneg (pixelDiff_nonneg p q) (sumPixelDiff_nonneg ps qs)

lemma sumPixelDiff_eq_zero_iff :
    ∀ ps qs : List Pixel, ps.length = qs.length →
      (Boundary.sumPixelDiff ps qs = 0 ↔ ps = qs)
  | [], [], _ => by simp [Boundary.sumPixelDiff]
  | p :: ps, q :: qs, h => by
    have hlen : ps.length = qs.length := by simpa using h
    show Boundary.pixelDiff p q + Boundary.sumPixelDiff ps qs = 0 ↔ _
    rw [add_eq_zero_iff_of_nonneg (pixelDiff_nonneg p q) (sumPixelDiff_nonneg ps qs),
      pixelDiff_eq_zero_iff, sumPixelDiff_eq_zero_iff ps qs hlen]
    simp

/-- C5: for boundaries of equal pixel-sequence length,
`compare_difference_with` is the sum of squared channel differences, is
always nonnegative, and vanishes exactly when the two pixel sequences agree
in every channel at every position. -/
theorem compare_difference_nonneg_eq_zero_iff (b ob : Boundary)
    (h : b.pixels.length = ob.pixels.length) :
    0 ≤ b.compare_difference_with ob ∧
      (b.compare_difference_with ob = 0 ↔ b.pixels = ob.pixels) :=
  ⟨sumPixelDiff_nonneg _ _, sumPixelDiff_eq_zero_iff _ _ h⟩

/-- Two concrete one-pixel boundaries for the witnesses. -/
def bndP : Boundary := Boundary.init [(1, 2, 3)] ((0 : ℤ), (0 : ℤ))

def bndQ : Boundary := Boundary.init [(4, 5, 6)] ((0 : ℤ), (0 : ℤ))

theorem compare_difference_nonneg_eq_zero_iff_witness :
    0 ≤ bndP.compare_difference_with bndQ ∧
      (bndP.compare_difference_with bndQ = 0 ↔ bndP.pixels = bndQ.pixels) :=
  compare_difference_nonneg_eq_zero_iff bndP bndQ (by decide)

/-- C3: the solver's score for a non-empty candidate group is the arithmetic
mean of `compare_difference_with` over all the group's boundary pairs. -/
theorem candidate_score_eq_mean (g : List (Boundary × Boundary)) (h : g ≠ []) :
    Solver.candidateScore g = Solver.specArithmeticMean g ∧ (g.length : ℚ) ≠ 0 := by
  constructor
  · unfold Solver.candidateScore Solver.specArithmeticMean Solver.scores
    rw [List.length_map]
  · exact_mod_cast (List.length_pos.mpr h).ne'

theorem candidate_score_eq_mean_witness :
    Solver.candidateScore [(bndP, bndQ), (bndP, bndP)] =
        Solver.specArithmeticMean [(bndP, bndQ), (bndP, bndP)] ∧
      (([(bndP, bndQ), (bndP, bndP)] : List (Boundary × Boundary)).length : ℚ) ≠ 0 :=
  candidate_score_eq_mean [(bndP, bndQ), (bndP, bndP)] (by decide)

/-! Translation of a piece (claim C4). -/

/-- The four boundary positions sit at the piece position plus the fixed
offsets `(0,-0.5)`, `(-0.5,0)`, `(0,0.5)`, `(0.5,0)` (in half-units:
`(0,-1)`, `(-1,0)`, `(0,1)`, `(1,0)`), top, left, bottom, right in order. -/
def boundariesAligned (pc : JigsawPiece) : Prop :=
  pc.boundaries.map (fun b => b.pos) =
    [pc.pos + ((0 : ℤ), (-1 : ℤ)), pc.pos + ((-1 : ℤ), (0 : ℤ)),
     pc.pos + ((0 : ℤ), (1 : ℤ)), pc.pos + ((1 : ℤ), (0 : ℤ))]

lemma update_pos_boundary_positions (pc : JigsawPiece) (p : Vec2) :
    (pc.update_pos p).boundaries.map (fun b => b.pos) =
      pc.boundaries.map (fun b => b.pos + (p - pc.pos)) := by
  unfold JigsawPiece.update_pos
  simp only [List.map_map]
  refine List.map_congr_left fun b _ => ?_
  show b.pos - pc.pos + p = b.pos + (p - pc.pos)
  ring

/-- C4: `update_pos` moves the piece to `p` and every one of its boundaries
by the same delta `p - pos`; boundaries are aligned on the four fixed
offsets at creation, and translation preserves that alignment. -/
theorem update_pos_translates_boundaries (pc : JigsawPiece) (p : Vec2)
    (h : boundariesAligned pc) :
    (pc.update_pos p).pos = p ∧
      (pc.update_pos p).boundaries.map (fun b => b.pos) =
        pc.boundaries.map (fun b => b.pos + (p - pc.pos)) ∧
      boundariesAligned (pc.update_pos p) ∧
      ∀ (nm : String) (img : Img), boundariesAligned (JigsawPiece.init nm img) := by
  refine ⟨rfl, update_pos_boundary_positions pc p, ?_, ?_⟩
  · unfold boundariesAligned at h ⊢
    calc (pc.update_pos p).boundaries.map (fun b => b.pos)
        = pc.boundaries.map
            ((fun v : Vec2 => v + (p - pc.pos)) ∘ fun b : Boundary => b.pos) :=
          update_pos_boundary_positions pc p
      _ = (pc.boundaries.map fun b : Boundary => b.pos).map
            (fun v : Vec2 => v + (p - pc.pos)) := (List.map_map _ _ _).symm
      _ = [pc.pos + ((0 : ℤ), (-1 : ℤ)), pc.pos + ((-1 : ℤ), (0 : ℤ)),
            pc.pos + ((0 : ℤ), (1 : ℤ)), pc.pos + ((1 : ℤ), (0 : ℤ))].map
            (fun v : Vec2 => v + (p - pc.pos)) := by rw [h]
      _ = [(pc.update_pos p).pos + ((0 : ℤ), (-1 : ℤ)), (pc.update_pos p).pos + ((-1 : ℤ), (0 : ℤ)),
            (pc.update_pos p).pos + ((0 : ℤ), (1 : ℤ)), (pc.update_pos p).pos + ((1 : ℤ), (0 : ℤ))] := by
          simp only [List.map_cons, List.map_nil, List.cons.injEq, and_true]
          have hpos : (pc.update_pos p).pos = p := rfl
          rw [hpos]
          exact ⟨by ring, by ring, by ring, by ring⟩
  · intro nm img
    unfold boundariesAligned JigsawPiece.init JigsawPiece.get_boundaries Boundary.init
    simp

theorem update_pos_translates_boundaries_witness :
    ((JigsawPiece.init "p" imgP).update_pos ((4 : ℤ), (6 : ℤ))).pos = ((4 : ℤ), (6 : ℤ)) ∧
      ((JigsawPiece.init "p" imgP).update_pos ((4 : ℤ), (6 : ℤ))).boundaries.map
          (fun b => b.pos) =
        (JigsawPiece.init "p" imgP).boundaries.map
          (fun b => b.pos + (((4 : ℤ), (6 : ℤ)) - (JigsawPiece.init "p" imgP).pos)) ∧
      boundariesAligned ((JigsawPiece.init "p" imgP).update_pos ((4 : ℤ), (6 : ℤ))) ∧
      ∀ (nm : String) (img : Img), boundariesAligned (JigsawPiece.init nm img) :=
  update_pos_translates_boundaries (JigsawPiece.init "p" imgP) ((4 : ℤ), (6 : ℤ))
    (by unfold boundariesAligned; decide)

/-! The merged-boundary loop only touches `is_internal` flags: piece
positions (and names, images, boundary positions and pixels) pass through
`mergePieces` unchanged.  Used for claims C1, C2 and C9. -/

lemma flagAt_map_pos (pos : Vec2) (op : List JigsawPiece) :
    (Jigsaw.flagAt pos op).map (fun p => p.pos) = op.map fun p => p.pos := by
  unfold Jigsaw.flagAt
  rw [List.map_map]
  rfl

lemma mergeStep_snd_map_pos (shift : Vec2) (op : List JigsawPiece) (b : Boundary) :
    ((Jigsaw.mergeStep shift op b).2.1).map (fun p => p.pos) = op.map fun p => p.pos := by
  unfold Jigsaw.mergeStep
  by_cases h : b.is_internal <;> simp [h, flagAt_map_pos]

lemma mergeBoundaries_snd_map_pos (shift : Vec2) :
    ∀ (bs : List Boundary) (op : List JigsawPiece),
      ((Jigsaw.mergeBoundaries shift op bs).2.1).map (fun p => p.pos) = op.map fun p => p.pos
  | [], _ => rfl
  | b :: bs, op => by
    show ((Jigsaw.mergeBoundaries shift (Jigsaw.mergeStep shift op b).2.1 bs).2.1).map _ = _
    rw [mergeBoundaries_snd_map_pos shift bs, mergeStep_snd_map_pos]

lemma mergePieces_fst_map_pos (shift : Vec2) :
    ∀ (sp : List JigsawPiece) (op : List JigsawPiece),
      ((Jigsaw.mergePieces shift op sp).1).map (fun p => p.pos) = sp.map fun p => p.pos
  | [], _ => rfl
  | p :: ps, op => by
    show (_ :: (Jigsaw.mergePieces shift (Jigsaw.mergeBoundaries shift op p.boundaries).2.1 ps).1).map _ = _
    rw [List.map_cons, List.map_cons, mergePieces_fst_map_pos shift ps]

lemma mergePieces_snd_map_pos (shift : Vec2) :
    ∀ (sp : List JigsawPiece) (op : List JigsawPiece),
      ((Jigsaw.mergePieces shift op sp).2.1).map (fun p => p.pos) = op.map fun p => p.pos
  | [], _ => rfl
  | p :: ps, op => by
    show ((Jigsaw.mergePieces shift (Jigsaw.mergeBoundaries shift op p.boundaries).2.1 ps).2.1).map _ = _
    rw [mergePieces_snd_map_pos shift ps, mergeBoundaries_snd_map_pos]

/-- C1: `merge_with` raises `InvalidJigsaw` exactly when, after translating
`other` by `join_boundary_pos - other_join_boundary_pos`, some grid position
carries more than one piece of `self` and the translated `other` combined;
and at the raise `self` is untouched (same pieces, boundaries and flags). -/
theorem merge_with_error_iff_overlap (s o : Jigsaw) (jp ojp : Vec2) :
    ((∃ e, s.merge_with o jp ojp = Except.error e) ↔
      ∃ v : Vec2,
        List.Duplicate v ((s.pieces ++ Jigsaw.translatePieces (jp - ojp) o.pieces).map
          fun p => p.pos)) ∧
    ∀ e, s.merge_with o jp ojp = Except.error e → e.1 = s := by
  unfold Jigsaw.merge_with
  by_cases hnd : (((s.pieces ++ Jigsaw.translatePieces (jp - ojp) o.pieces).map fun p => p.pos).Nodup)
  · rw [if_pos hnd]
    refine ⟨⟨fun he => ?_, fun hv => ?_⟩, fun e he => by cases he⟩
    · obtain ⟨e, he⟩ := he
      cases he
    · exact absurd hnd (List.exists_duplicate_iff_not_nodup.mp hv)
  · rw [if_neg hnd]
    exact ⟨⟨fun _ => List.exists_duplicate_iff_not_nodup.mpr hnd, fun _ => ⟨_, rfl⟩⟩,
      fun e he => by cases he; rfl⟩

theorem merge_with_error_iff_overlap_witness :
    ((∃ e, jigP.merge_with jigQ ((0 : ℤ), (0 : ℤ)) ((0 : ℤ), (0 : ℤ)) = Except.error e) ↔
      ∃ v : Vec2,
        List.Duplicate v ((jigP.pieces ++
          Jigsaw.translatePieces ((((0 : ℤ), (0 : ℤ)) : Vec2) - (((0 : ℤ), (0 : ℤ)) : Vec2))
            jigQ.pieces).map fun p => p.pos)) ∧
    ∀ e, jigP.merge_with jigQ ((0 : ℤ), (0 : ℤ)) ((0 : ℤ), (0 : ℤ)) = Except.error e →
      e.1 = jigP :=
  merge_with_error_iff_overlap jigP jigQ ((0 : ℤ), (0 : ℤ)) ((0 : ℤ), (0 : ℤ))

/-- C2: a successful `merge_with` yields an assembly in which no two pieces
occupy the same grid position. -/
theorem merge_with_nodup_positions (s o : Jigsaw) (jp ojp : Vec2)
    (m : Jigsaw) (prs : List (Boundary × Boundary))
    (h : s.merge_with o jp ojp = Except.ok (m, prs)) :
    (m.pieces.map fun p => p.pos).Nodup := by
  unfold Jigsaw.merge_with at h
  by_cases hnd : (((s.pieces ++ Jigsaw.translatePieces (jp - ojp) o.pieces).map fun p => p.pos).Nodup)
  · rw [if_pos hnd] at h
    obtain ⟨hm, -⟩ := Prod.mk.injEq .. ▸ (Except.ok.injEq .. ▸ h)
    have : m.pieces =
        (Jigsaw.mergePieces (jp - ojp) (Jigsaw.translatePieces (jp - ojp) o.pieces) s.pieces).1 ++
        (Jigsaw.mergePieces (jp - ojp) (Jigsaw.translatePieces (jp - ojp) o.pieces) s.pieces).2.1 := by
      rw [← hm]
    rw [this, List.map_append, mergePieces_fst_map_pos, mergePieces_snd_map_pos]
    rw [List.map_append] at hnd
    exact hnd
  · rw [if_neg hnd] at h
    cases h

theorem merge_with_nodup_positions_witness :
    ((Jigsaw.okJig (jigP.merge_with jigQ ((1 : ℤ), (0 : ℤ)) ((-1 : ℤ), (0 : ℤ)))).pieces.map
      fun p => p.pos).Nodup :=
  merge_with_nodup_positions jigP jigQ ((1 : ℤ), (0 : ℤ)) ((-1 : ℤ), (0 : ℤ))
    (Jigsaw.okJig (jigP.merge_with jigQ ((1 : ℤ), (0 : ℤ)) ((-1 : ℤ), (0 : ℤ))))
    (Jigsaw.okPairs (jigP.merge_with jigQ ((1 : ℤ), (0 : ℤ)) ((-1 : ℤ), (0 : ℤ))))
    (by rfl)

/-- C8: `find_all_connections` leaves both live assemblies unchanged -- every
trial `merge_with` runs on the deep copies only, so the state transformer
returns the input assemblies (pieces, positions, boundary positions,
`is_internal` flags) exactly as they were. -/
theorem find_all_connections_preserves_state (s o : Jigsaw) :
    (Jigsaw.find_all_connections_run s o).1 = (s, o) ∧
      ((Jigsaw.find_all_connections_run s o).1.1.pieces = s.pieces ∧
        (Jigsaw.find_all_connections_run s o).1.2.pieces = o.pieces) :=
  ⟨rfl, rfl, rfl⟩

/-! Claim C6: what the solver loop does to a pair with zero valid
candidates.  Lines 231-244 store
`min(connection_reports, key=...)` unconditionally, and Python's `min`
raises `ValueError` on an empty sequence, so such a pair is not skipped:
the run dies on it.  `jigP` (1x1 piece) and `jigR` (2x2 piece) give such a
pair: every boundary pair fails `is_compatible_with` (lengths 1 vs 2). -/

theorem zero_candidate_pair_crashes :
    jigP.find_all_connections jigR = [] ∧
      Solver.computePairEntry jigP jigR = Solver.PairOutcome.crashed :=
  ⟨by decide, by decide⟩

/-- C6 amended: an assembly pair with zero valid candidates is not skipped;
computing its memo entry takes `min` of an empty report list, which raises
`ValueError` (`crashed`) and aborts the solver. -/
theorem compute_pair_entry_crashes_of_no_candidates (j1 j2 : Jigsaw)
    (h : j1.find_all_connections j2 = []) :
    Solver.computePairEntry j1 j2 = Solver.PairOutcome.crashed := by
  unfold Solver.computePairEntry
  rw [h]
  rfl

theorem compute_pair_entry_crashes_of_no_candidates_witness :
    Solver.computePairEntry jigQ jigR = Solver.PairOutcome.crashed :=
  compute_pair_entry_crashes_of_no_candidates jigQ jigR (by decide)

/-! Claim C7: a merge that passes the collision check but closes no seam.
The merged-boundary loop of `merge_with` (lines 149-163) returns whatever it
found -- there is no raise after the collision check -- so such a call
returns `ok` with an empty pair list instead of `InvalidJigsaw`. -/

lemma externalsAt_eq_nil_iff (pos : Vec2) (op : List JigsawPiece) :
    Jigsaw.externalsAt pos op = [] ↔
      ∀ b ∈ op.flatMap fun p => p.boundaries, b.is_internal = false → b.pos ≠ pos := by
  unfold Jigsaw.externalsAt
  rw [List.filter_eq_nil_iff]
  constructor
  · intro h b hb hbi hbp
    exact h b (List.mem_filter.mpr ⟨hb, by simp [hbi]⟩) (by simp [hbp])
  · intro h b hb
    obtain ⟨hb1, hb2⟩ := List.mem_filter.mp hb
    simp only [decide_eq_true_eq]
    exact h b hb1 (by simpa using hb2)

lemma flagAt_no_match (pos : Vec2) (op : List JigsawPiece)
    (h : Jigsaw.externalsAt pos op = []) : Jigsaw.flagAt pos op = op := by
  rw [externalsAt_eq_nil_iff] at h
  unfold Jigsaw.flagAt
  calc op.map (fun p =>
        ({ p with
          boundaries := p.boundaries.map fun b =>
            if !b.is_internal ∧ b.pos = pos then { b with is_internal := true } else b } :
          JigsawPiece))
      = op.map id := by
        refine List.map_congr_left fun p hp => ?_
        have hbs : (p.boundaries.map fun b =>
            if !b.is_internal ∧ b.pos = pos then { b with is_internal := true } else b) =
            p.boundaries := by
          conv_rhs => rw [← List.map_id p.boundaries]
          refine List.map_congr_left fun b hb => ?_
          rw [if_neg]
          · rfl
          rintro ⟨h1, h2⟩
          exact h b (List.mem_flatMap.mpr ⟨p, hp, hb⟩) (by simpa using h1) h2
        show ({ p with boundaries := _ } : JigsawPiece) = p
        rw [hbs]
    _ = op := List.map_id op

lemma mergeStep_no_match (shift : Vec2) (op : List JigsawPiece) (b : Boundary)
    (h : b.is_internal = true ∨ Jigsaw.externalsAt b.pos op = []) :
    Jigsaw.mergeStep shift op b = (b, op, []) := by
  unfold Jigsaw.mergeStep
  by_cases hbi : b.is_internal
  · rw [if_pos hbi]
  · have hm : Jigsaw.externalsAt b.pos op = [] := h.resolve_left hbi
    have hbf : b.is_internal = false := by simpa using hbi
    rw [if_neg hbi]
    show ({ b with is_internal := !(Jigsaw.externalsAt b.pos op).isEmpty },
      Jigsaw.flagAt b.pos op,
      (Jigsaw.externalsAt b.pos op).map fun ob =>
        ({ b with is_internal := !(Jigsaw.externalsAt b.pos op).isEmpty },
          Boundary.init ob.pixels (ob.pos - shift))) = (b, op, [])
    rw [hm, flagAt_no_match _ _ hm]
    have hb2 : ({ b with is_internal := !(List.isEmpty ([] : List Boundary)) } : Boundary) = b := by
      show ({ b with is_internal := false } : Boundary) = b
      rw [← hbf]
    rw [hb2]
    rfl

lemma mergeBoundaries_no_match (shift : Vec2) :
    ∀ (bs : List Boundary) (op : List JigsawPiece),
      (∀ b ∈ bs, b.is_internal = false → Jigsaw.externalsAt b.pos op = []) →
      Jigsaw.mergeBoundaries shift op bs = (bs, op, [])
  | [], _, _ => rfl
  | b :: bs, op, h => by
    have hstep : Jigsaw.mergeStep shift op b = (b, op, []) := by
      rcases Bool.eq_false_or_eq_true b.is_internal with hb | hb
      · exact mergeStep_no_match shift op b (Or.inl hb)
      · exact mergeStep_no_match shift op b (Or.inr (h b (List.mem_cons_self b bs) hb))
    show ((Jigsaw.mergeStep shift op b).1 ::
        (Jigsaw.mergeBoundaries shift (Jigsaw.mergeStep shift op b).2.1 bs).1,
      (Jigsaw.mergeBoundaries shift (Jigsaw.mergeStep shift op b).2.1 bs).2.1,
      (Jigsaw.mergeStep shift op b).2.2 ++
        (Jigsaw.mergeBoundaries shift (Jigsaw.mergeStep shift op b).2.1 bs).2.2) = (b :: bs, op, [])
    rw [hstep]
    show (b :: (Jigsaw.mergeBoundaries shift op bs).1, (Jigsaw.mergeBoundaries shift op bs).2.1,
      [] ++ (Jigsaw.mergeBoundaries shift op bs).2.2) = (b :: bs, op, [])
    rw [mergeBoundaries_no_match shift bs op fun b' hb' => h b' (List.mem_cons_of_mem b hb')]
    rfl

lemma mergePieces_no_match (shift : Vec2) :
    ∀ (sp : List JigsawPiece) (op : List JigsawPiece),
      (∀ p ∈ sp, ∀ b ∈ p.boundaries, b.is_internal = false → Jigsaw.externalsAt b.pos op = []) →
      Jigsaw.mergePieces shift op sp = (sp, op, [])
  | [], _, _ => rfl
  | p :: ps, op, h => by
    have hhd : Jigsaw.mergeBoundaries shift op p.boundaries = (p.boundaries, op, []) :=
      mergeBoundaries_no_match shift p.boundaries op fun b hb =>
        h p (List.mem_cons_self p ps) b hb
    show ({ p with boundaries := (Jigsaw.mergeBoundaries shift op p.boundaries).1 } ::
        (Jigsaw.mergePieces shift (Jigsaw.mergeBoundaries shift op p.boundaries).2.1 ps).1,
      (Jigsaw.mergePieces shift (Jigsaw.mergeBoundaries shift op p.boundaries).2.1 ps).2.1,
      (Jigsaw.mergeBoundaries shift op p.boundaries).2.2 ++
        (Jigsaw.mergePieces shift (Jigsaw.mergeBoundaries shift op p.boundaries).2.1 ps).2.2) =
      (p :: ps, op, [])
    rw [hhd]
    show ({ p with boundaries := p.boundaries } :: (Jigsaw.mergePieces shift op ps).1,
      (Jigsaw.mergePieces shift op ps).2.1,
      [] ++ (Jigsaw.mergePieces shift op ps).2.2) = (p :: ps, op, [])
    rw [mergePieces_no_match shift ps op fun p' hp' => h p' (List.mem_cons_of_mem p hp')]
    rfl

lemma mem_external_boundaries (s : Jigsaw) (b : Boundary) :
    b ∈ s.external_boundaries ↔
      (∃ p ∈ s.pieces, b ∈ p.boundaries) ∧ b.is_internal = false := by
  unfold Jigsaw.external_boundaries
  rw [List.mem_filter, List.mem_flatMap]
  simp

/-- C7 counterexample: a `merge_with` call that passes the collision check
(two distant 1x1 pieces) yet closes zero boundary pairs returns successfully
with an empty merged-pair list -- it does not raise `InvalidJigsaw`. -/
theorem merge_zero_pairs_returns_ok :
    (jigP.merge_with jigQ ((0 : ℤ), (0 : ℤ)) ((12 : ℤ), (12 : ℤ))).isOk = true ∧
      Jigsaw.okPairs (jigP.merge_with jigQ ((0 : ℤ), (0 : ℤ)) ((12 : ℤ), (12 : ℤ))) = [] :=
  ⟨by rfl, by rfl⟩

/-- C7 amended: when the collision check passes and no initially-external
boundary of `self` shares a position with an external boundary of the
translated `other`, `merge_with` does not fail: it returns `self` with
`other`'s translated pieces appended, no flag changed, and an empty list of
merged boundary pairs. -/
theorem merge_with_ok_empty_of_no_seam (s o : Jigsaw) (jp ojp : Vec2)
    (hnd : (((s.pieces ++ Jigsaw.translatePieces (jp - ojp) o.pieces).map fun p => p.pos).Nodup))
    (hns : ∀ b ∈ s.external_boundaries,
      Jigsaw.externalsAt b.pos (Jigsaw.translatePieces (jp - ojp) o.pieces) = []) :
    s.merge_with o jp ojp =
      Except.ok (⟨s.pieces ++ Jigsaw.translatePieces (jp - ojp) o.pieces⟩, []) := by
  unfold Jigsaw.merge_with
  rw [if_pos hnd]
  have hmp : Jigsaw.mergePieces (jp - ojp) (Jigsaw.translatePieces (jp - ojp) o.pieces) s.pieces =
      (s.pieces, Jigsaw.translatePieces (jp - ojp) o.pieces, []) :=
    mergePieces_no_match _ _ _ fun p hp b hb hbi =>
      hns b ((mem_external_boundaries s b).mpr ⟨⟨p, hp, hb⟩, hbi⟩)
  rw [hmp]

theorem merge_with_ok_empty_of_no_seam_witness :
    jigP.merge_with jigQ ((0 : ℤ), (0 : ℤ)) ((12 : ℤ), (12 : ℤ)) =
      Except.ok
        (⟨jigP.pieces ++
          Jigsaw.translatePieces ((((0 : ℤ), (0 : ℤ)) : Vec2) - (((12 : ℤ), (12 : ℤ)) : Vec2))
            jigQ.pieces⟩, []) :=
  merge_with_ok_empty_of_no_seam jigP jigQ ((0 : ℤ), (0 : ℤ)) ((12 : ℤ), (12 : ℤ))
    (by decide) (by decide)

/-! Claim C9: `is_internal` is monotone -- translation keeps it, the merge
loop only ever sets it, pure reads never touch it. -/

/-- Pointwise order on the `is_internal` flags of two same-shape piece
lists: every boundary internal on the left is internal on the right. -/
def flagsLE (xs ys : List JigsawPiece) : Prop :=
  List.Forall₂ (fun p q =>
    List.Forall₂ (fun a b : Boundary => a.is_internal = true → b.is_internal = true)
      p.boundaries q.boundaries) xs ys

lemma boundaryFlagsLE_refl (bs : List Boundary) :
    List.Forall₂ (fun a b : Boundary => a.is_internal = true → b.is_internal = true) bs bs :=
  List.forall₂_same.mpr fun _ _ h => h

lemma boundaryFlagsLE_trans {as bs cs : List Boundary}
    (h1 : List.Forall₂ (fun a b : Boundary => a.is_internal = true → b.is_internal = true) as bs)
    (h2 : List.Forall₂ (fun a b : Boundary => a.is_internal = true → b.is_internal = true) bs cs) :
    List.Forall₂ (fun a b : Boundary => a.is_internal = true → b.is_internal = true) as cs := by
  induction h1 generalizing cs with
  | nil => cases h2; exact List.Forall₂.nil
  | cons hab _ ih =>
    cases h2 with
    | cons hbc h2' => exact List.Forall₂.cons (fun ha => hbc (hab ha)) (ih h2')

lemma flagsLE_refl (xs : List JigsawPiece) : flagsLE xs xs :=
  List.forall₂_same.mpr fun p _ => boundaryFlagsLE_refl p.boundaries

lemma flagsLE_trans {xs ys zs : List JigsawPiece}
    (h1 : flagsLE xs ys) (h2 : flagsLE ys zs) : flagsLE xs zs := by
  unfold flagsLE at *
  induction h1 generalizing zs with
  | nil => cases h2; exact List.Forall₂.nil
  | cons hab _ ih =>
    cases h2 with
    | cons hbc h2' => exact List.Forall₂.cons (boundaryFlagsLE_trans hab hbc) (ih h2')

lemma flagsLE_flagAt (pos : Vec2) (op : List JigsawPiece) :
    flagsLE op (Jigsaw.flagAt pos op) := by
  unfold flagsLE Jigsaw.flagAt
  rw [List.forall₂_map_right_iff, List.forall₂_same]
  intro p _
  show List.Forall₂ _ p.boundaries (p.boundaries.map _)
  rw [List.forall₂_map_right_iff, List.forall₂_same]
  intro b _ hbi
  split
  · rfl
  · exact hbi

lemma flagsLE_mergeStep_snd (shift : Vec2) (op : List JigsawPiece) (b : Boundary) :
    flagsLE op (Jigsaw.mergeStep shift op b).2.1 := by
  unfold Jigsaw.mergeStep
  by_cases hbi : b.is_internal
  · rw [if_pos hbi]
    exact flagsLE_refl op
  · rw [if_neg hbi]
    show flagsLE op (Jigsaw.flagAt b.pos op)
    exact flagsLE_flagAt b.pos op

lemma flagsLE_mergeBoundaries_snd (shift : Vec2) :
    ∀ (bs : List Boundary) (op : List JigsawPiece),
      flagsLE op (Jigsaw.mergeBoundaries shift op bs).2.1
  | [], op => flagsLE_refl op
  | b :: bs, op => by
    show flagsLE op (Jigsaw.mergeBoundaries shift (Jigsaw.mergeStep shift op b).2.1 bs).2.1
    exact flagsLE_trans (flagsLE_mergeStep_snd shift op b)
      (flagsLE_mergeBoundaries_snd shift bs _)

lemma flagsLE_mergePieces_snd (shift : Vec2) :
    ∀ (sp : List JigsawPiece) (op : List JigsawPiece),
      flagsLE op (Jigsaw.mergePieces shift op sp).2.1
  | [], op => flagsLE_refl op
  | p :: ps, op => by
    show flagsLE op
      (Jigsaw.mergePieces shift (Jigsaw.mergeBoundaries shift op p.boundaries).2.1 ps).2.1
    exact flagsLE_trans (flagsLE_mergeBoundaries_snd shift p.boundaries op)
      (flagsLE_mergePieces_snd shift ps _)

lemma mergeStep_fst_flag (shift : Vec2) (op : List JigsawPiece) (b : Boundary)
    (h : b.is_internal = true) : (Jigsaw.mergeStep shift op b).1.is_internal = true := by
  unfold Jigsaw.mergeStep
  rw [if_pos h]
  exact h

lemma boundaryFlagsLE_mergeBoundaries_fst (shift : Vec2) :
    ∀ (bs : List Boundary) (op : List JigsawPiece),
      List.Forall₂ (fun a b : Boundary => a.is_internal = true → b.is_internal = true)
        bs (Jigsaw.mergeBoundaries shift op bs).1
  | [], _ => List.Forall₂.nil
  | b :: bs, op => by
    show List.Forall₂ _ (b :: bs) ((Jigsaw.mergeStep shift op b).1 ::
      (Jigsaw.mergeBoundaries shift (Jigsaw.mergeStep shift op b).2.1 bs).1)
    exact List.Forall₂.cons (mergeStep_fst_flag shift op b)
      (boundaryFlagsLE_mergeBoundaries_fst shift bs _)

lemma flagsLE_mergePieces_fst (shift : Vec2) :
    ∀ (sp : List JigsawPiece) (op : List JigsawPiece),
      flagsLE sp (Jigsaw.mergePieces shift op sp).1
  | [], _ => List.Forall₂.nil
  | p :: ps, op => by
    show flagsLE (p :: ps)
      ({ p with boundaries := (Jigsaw.mergeBoundaries shift op p.boundaries).1 } ::
        (Jigsaw.mergePieces shift (Jigsaw.mergeBoundaries shift op p.boundaries).2.1 ps).1)
    exact List.Forall₂.cons (boundaryFlagsLE_mergeBoundaries_fst shift p.boundaries op)
      (flagsLE_mergePieces_fst shift ps _)

lemma flagsLE_translatePieces (shift : Vec2) (op : List JigsawPiece) :
    flagsLE op (Jigsaw.translatePieces shift op) := by
  unfold flagsLE Jigsaw.translatePieces
  rw [List.forall₂_map_right_iff, List.forall₂_same]
  intro p _
  show List.Forall₂ _ p.boundaries (p.boundaries.map _)
  rw [List.forall₂_map_right_iff, List.forall₂_same]
  intro b _ hbi
  exact hbi

/-- C9: a successful `merge_with` never clears an `is_internal` flag (it only
sets them), and a translation (`update_pos`) leaves every flag exactly as it
was; the remaining operations (`find_all_connections`, rendering, the derived
boundary views) are pure reads of the model.  So the flag is monotone. -/
theorem merge_preserves_internal_flags (s o : Jigsaw) (jp ojp : Vec2) (m : Jigsaw)
    (prs : List (Boundary × Boundary))
    (h : s.merge_with o jp ojp = Except.ok (m, prs)) :
    flagsLE (s.pieces ++ o.pieces) m.pieces ∧
      ∀ (pc : JigsawPiece) (p : Vec2),
        (pc.update_pos p).boundaries.map (fun b => b.is_internal) =
          pc.boundaries.map fun b => b.is_internal := by
  constructor
  · unfold Jigsaw.merge_with at h
    by_cases hnd :
        (((s.pieces ++ Jigsaw.translatePieces (jp - ojp) o.pieces).map fun p => p.pos).Nodup)
    · rw [if_pos hnd] at h
      have hm : m.pieces =
          (Jigsaw.mergePieces (jp - ojp) (Jigsaw.translatePieces (jp - ojp) o.pieces) s.pieces).1 ++
          (Jigsaw.mergePieces (jp - ojp) (Jigsaw.translatePieces (jp - ojp) o.pieces)
            s.pieces).2.1 := by
        obtain ⟨hm, -⟩ := Prod.mk.injEq .. ▸ (Except.ok.injEq .. ▸ h)
        rw [← hm]
      rw [hm]
      exact List.rel_append (flagsLE_mergePieces_fst _ s.pieces _)
        (flagsLE_trans (flagsLE_translatePieces _ o.pieces) (flagsLE_mergePieces_snd _ _ _))
    · rw [if_neg hnd] at h
      cases h
  · intro pc p
    unfold JigsawPiece.update_pos
    rw [List.map_map]
    rfl

theorem merge_preserves_internal_flags_witness :
    flagsLE (jigP.pieces ++ jigQ.pieces)
        (Jigsaw.okJig (jigP.merge_with jigQ ((1 : ℤ), (0 : ℤ)) ((-1 : ℤ), (0 : ℤ)))).pieces ∧
      ∀ (pc : JigsawPiece) (p : Vec2),
        (pc.update_pos p).boundaries.map (fun b => b.is_internal) =
          pc.boundaries.map fun b => b.is_internal :=
  merge_preserves_internal_flags jigP jigQ ((1 : ℤ), (0 : ℤ)) ((-1 : ℤ), (0 : ℤ))
    (Jigsaw.okJig (jigP.merge_with jigQ ((1 : ℤ), (0 : ℤ)) ((-1 : ℤ), (0 : ℤ))))
    (Jigsaw.okPairs (jigP.merge_with jigQ ((1 : ℤ), (0 : ℤ)) ((-1 : ℤ), (0 : ℤ))))
    (by rfl)

/-! Claim C10: every successful trial merge anchored at a pair of external
boundaries closes at least one seam, so every candidate list that
`find_all_connections` returns is non-empty and the solver's
`sum(scores) / len(scores)` never divides by zero. -/

lemma mergeBoundaries_pairs_nil (shift : Vec2) :
    ∀ (bs : List Boundary) (op : List JigsawPiece),
      (Jigsaw.mergeBoundaries shift op bs).2.2 = [] →
      (Jigsaw.mergeBoundaries shift op bs).2.1 = op ∧
        ∀ b ∈ bs, b.is_internal = false → Jigsaw.externalsAt b.pos op = []
  | [], op, _ => ⟨rfl, by simp⟩
  | b :: bs, op, h => by
    have hshape : (Jigsaw.mergeBoundaries shift op (b :: bs)).2.2 =
        (Jigsaw.mergeStep shift op b).2.2 ++
          (Jigsaw.mergeBoundaries shift (Jigsaw.mergeStep shift op b).2.1 bs).2.2 := rfl
    rw [hshape] at h
    obtain ⟨h1, h2⟩ := List.append_eq_nil.mp h
    have hstep : (Jigsaw.mergeStep shift op b).2.1 = op ∧
        (b.is_internal = false → Jigsaw.externalsAt b.pos op = []) := by
      by_cases hbi : b.is_internal
      · refine ⟨?_, fun hf => absurd hbi (by simp [hf])⟩
        unfold Jigsaw.mergeStep
        rw [if_pos hbi]
      · have h1' : (Jigsaw.externalsAt b.pos op).map
            (fun ob => (({ b with is_internal := !(Jigsaw.externalsAt b.pos op).isEmpty } :
              Boundary), Boundary.init ob.pixels (ob.pos - shift))) = [] := by
          have hs : (Jigsaw.mergeStep shift op b).2.2 = (Jigsaw.externalsAt b.pos op).map
              (fun ob => (({ b with is_internal := !(Jigsaw.externalsAt b.pos op).isEmpty } :
                Boundary), Boundary.init ob.pixels (ob.pos - shift))) := by
            unfold Jigsaw.mergeStep
            rw [if_neg hbi]
          rw [← hs]
          exact h1
        have hm : Jigsaw.externalsAt b.pos op = [] := List.map_eq_nil_iff.mp h1'
        refine ⟨?_, fun _ => hm⟩
        unfold Jigsaw.mergeStep
        rw [if_neg hbi]
        show Jigsaw.flagAt b.pos op = op
        exact flagAt_no_match _ _ hm
    rw [hstep.1] at h2
    have ih := mergeBoundaries_pairs_nil shift bs op h2
    constructor
    · show (Jigsaw.mergeBoundaries shift (Jigsaw.mergeStep shift op b).2.1 bs).2.1 = op
      rw [hstep.1]
      exact ih.1
    · intro b' hb' hbf'
      rcases List.mem_cons.mp hb' with rfl | hmem
      · exact hstep.2 hbf'
      · exact ih.2 b' hmem hbf'

lemma mergePieces_pairs_nil (shift : Vec2) :
    ∀ (sp : List JigsawPiece) (op : List JigsawPiece),
      (Jigsaw.mergePieces shift op sp).2.2 = [] →
      (Jigsaw.mergePieces shift op sp).2.1 = op ∧
        ∀ p ∈ sp, ∀ b ∈ p.boundaries, b.is_internal = false →
          Jigsaw.externalsAt b.pos op = []
  | [], op, _ => ⟨rfl, by simp⟩
  | p :: ps, op, h => by
    have hshape : (Jigsaw.mergePieces shift op (p :: ps)).2.2 =
        (Jigsaw.mergeBoundaries shift op p.boundaries).2.2 ++
          (Jigsaw.mergePieces shift (Jigsaw.mergeBoundaries shift op p.boundaries).2.1 ps).2.2 :=
      rfl
    rw [hshape] at h
    obtain ⟨h1, h2⟩ := List.append_eq_nil.mp h
    have hhd := mergeBoundaries_pairs_nil shift p.boundaries op h1
    rw [hhd.1] at h2
    have ih := mergePieces_pairs_nil shift ps op h2
    constructor
    · show (Jigsaw.mergePieces shift (Jigsaw.mergeBoundaries shift op p.boundaries).2.1 ps).2.1 = op
      rw [hhd.1]
      exact ih.1
    · intro p' hp' b hb hbf
      rcases List.mem_cons.mp hp' with rfl | hmem
      · exact hhd.2 b hb hbf
      · exact ih.2 p' hmem b hb hbf

lemma merge_with_pairs_ne_nil (s o : Jigsaw) (b ob : Boundary) (m : Jigsaw)
    (prs : List (Boundary × Boundary))
    (hb : b ∈ s.external_boundaries) (hob : ob ∈ o.external_boundaries)
    (h : s.merge_with o b.pos ob.pos = Except.ok (m, prs)) : prs ≠ [] := by
  intro hnil
  unfold Jigsaw.merge_with at h
  by_cases hnd :
      (((s.pieces ++ Jigsaw.translatePieces (b.pos - ob.pos) o.pieces).map fun p => p.pos).Nodup)
  · rw [if_pos hnd] at h
    obtain ⟨-, hprs⟩ := Prod.mk.injEq .. ▸ (Except.ok.injEq .. ▸ h)
    have hpairs :
        (Jigsaw.mergePieces (b.pos - ob.pos) (Jigsaw.translatePieces (b.pos - ob.pos) o.pieces)
          s.pieces).2.2 = [] := hprs.trans hnil
    obtain ⟨-, hall⟩ := mergePieces_pairs_nil _ _ _ hpairs
    obtain ⟨⟨p, hp, hbmem⟩, hbf⟩ := (mem_external_boundaries s b).mp hb
    have hext := hall p hp b hbmem hbf
    rw [externalsAt_eq_nil_iff] at hext
    obtain ⟨⟨q, hq, hobmem⟩, hobf⟩ := (mem_external_boundaries o ob).mp hob
    have hmem2 : (ob.update_pos q.pos (q.pos + (b.pos - ob.pos))) ∈
        ((Jigsaw.translatePieces (b.pos - ob.pos) o.pieces).flatMap fun p => p.boundaries) := by
      refine List.mem_flatMap.mpr ⟨q.update_pos (q.pos + (b.pos - ob.pos)), ?_, ?_⟩
      · exact List.mem_map.mpr ⟨q, hq, rfl⟩
      · show _ ∈ q.boundaries.map fun bb => bb.update_pos q.pos (q.pos + (b.pos - ob.pos))
        exact List.mem_map.mpr ⟨ob, hobmem, rfl⟩
    refine hext _ hmem2 hobf ?_
    show ob.pos - q.pos + (q.pos + (b.pos - ob.pos)) = b.pos
    ring
  · rw [if_neg hnd] at h
    cases h

/-- C10: every candidate group returned by `find_all_connections` is
non-empty, because a trial `merge_with` anchored at external boundaries that
passes the collision check always records at least one position-equal
boundary pair; hence `sum(scores) / len(scores)` never divides by zero. -/
theorem find_all_connections_candidates_ne_nil :
    (∀ (s o : Jigsaw) (g : List (Boundary × Boundary)),
        g ∈ s.find_all_connections o → g ≠ []) ∧
    (∀ (s o : Jigsaw) (b ob : Boundary) (m : Jigsaw) (prs : List (Boundary × Boundary)),
        b ∈ s.external_boundaries → ob ∈ o.external_boundaries →
        s.merge_with o b.pos ob.pos = Except.ok (m, prs) → prs ≠ []) := by
  constructor
  · intro s o g hg
    unfold Jigsaw.find_all_connections at hg
    obtain ⟨b, hb, hg2⟩ := List.mem_flatMap.mp hg
    obtain ⟨ob, hob, hfg⟩ := List.mem_filterMap.mp hg2
    by_cases hc : b.is_compatible_with ob
    · rw [if_pos hc] at hfg
      cases hmw : s.merge_with o b.pos ob.pos with
      | ok r =>
        rw [hmw] at hfg
        have hfg' : some r.2 = some g := hfg
        have hg3 : g = r.2 := (Option.some.inj hfg').symm
        rw [hg3]
        exact merge_with_pairs_ne_nil s o b ob r.1 r.2 hb hob hmw
      | error e =>
        rw [hmw] at hfg
        cases hfg
    · rw [if_neg hc] at hfg
      cases hfg
  · exact fun s o b ob m prs hb hob h => merge_with_pairs_ne_nil s o b ob m prs hb hob h

theorem find_all_connections_candidates_ne_nil_witness :
    Jigsaw.okPairs (jigP.merge_with jigQ ((1 : ℤ), (0 : ℤ)) ((-1 : ℤ), (0 : ℤ))) ≠ [] :=
  find_all_connections_candidates_ne_nil.2 jigP jigQ
    (Boundary.init [(1, 2, 3)] ((1 : ℤ), (0 : ℤ)))
    (Boundary.init [(4, 5, 6)] ((-1 : ℤ), (0 : ℤ)))
    (Jigsaw.okJig (jigP.merge_with jigQ ((1 : ℤ), (0 : ℤ)) ((-1 : ℤ), (0 : ℤ))))
    (Jigsaw.okPairs (jigP.merge_with jigQ ((1 : ℤ), (0 : ℤ)) ((-1 : ℤ), (0 : ℤ))))
    (by decide) (by decide) (by rfl)
